import Mathlib

/-!
Verification of the OpenPSG viewer core against its specification.

The development shallowly embeds the TypeScript sources:
 * `src/lib/resampling/resample.ts` — the fixed-count resampler;
 * `src/lib/filters/utils.ts` / `IIRFilter.ts` — the cascaded biquad engine;
 * `src/lib/edf/edfreader.ts` — the EDF header decoder;
 * `src/lib/filters/IIRCascade.ts` / `IIRCoeffs.ts` — the biquad designer.

JavaScript `number` values are modelled as exact rationals (`ℚ`); the
transcendental functions used by the filter designer are abstracted as
parameters, so theorems about the designer hold for every interpretation
of those functions.  Array indexing is modelled with `Option`-returning
access so that out-of-range reads are observable.
-/

namespace OpenPSG

/-! ### Resampler (src/lib/resampling/resample.ts)

`resample(input, n, upsample)` walks `n` output positions evenly spaced
across the input index range, linearly interpolating between bracketing
samples.  `idxGet` models JavaScript array indexing: an out-of-range read
yields `none` (JS `undefined`). -/

def idxGet (l : List ℚ) (i : ℤ) : Option ℚ :=
  if 0 ≤ i then l.get? i.toNat else none

/-- Sequenced option-valued map, mirroring the result-pushing loop. -/
def mapOpt (f : ℕ → Option ℚ) : List ℕ → Option (List ℚ)
  | [] => some []
  | i :: is =>
    match f i, mapOpt f is with
    | some v, some vs => some (v :: vs)
    | _, _ => none

/-- Body of the interpolation loop of `resample` for output position `i`. -/
def resampleAt (input : List ℚ) (step : ℚ) (i : ℕ) : Option ℚ :=
  let idx : ℚ := (i : ℚ) * step
  let left : ℤ := ⌊idx⌋
  let right : ℤ := ⌈idx⌉
  if left = right then idxGet input left
  else
    match idxGet input left, idxGet input right with
    | some lv, some rv =>
      let ratio := idx - (left : ℚ)
      some (lv * (1 - ratio) + rv * ratio)
    | _, _ => none

/-- Shallow embedding of `resample`.  The `n == 1` middle index and every
interpolation read go through `idxGet`, so an out-of-range read surfaces
as `none`. -/
def resample (input : List ℚ) (n : ℕ) (upsample : Bool := true) :
    Option (List ℚ) :=
  let length := input.length
  if upsample = false ∧ length ≤ n then some input
  else if length = n then some input
  else if n = 1 then
    (idxGet input ⌊((length : ℚ) - 1) / 2⌋).map (fun v => [v])
  else
    let step : ℚ := ((length : ℚ) - 1) / ((n : ℚ) - 1)
    mapOpt (resampleAt input step) (List.range n)

lemma mapOpt_eq_map (f : ℕ → Option ℚ) (l : List ℕ)
    (h : ∀ i ∈ l, (f i).isSome) :
    mapOpt f l = some (l.map fun i => (f i).getD 0) := by
  induction l with
  | nil => rfl
  | cons a as ih =>
    have ha : (f a).isSome := h a (List.mem_cons_self a as)
    obtain ⟨v, hv⟩ := Option.isSome_iff_exists.mp ha
    have has : mapOpt f as = some (as.map fun i => (f i).getD 0) :=
      ih fun i hi => h i (List.mem_cons_of_mem a hi)
    simp [mapOpt, hv, has]

lemma idxGet_isSome (l : List ℚ) (i : ℤ) (h0 : 0 ≤ i)
    (hlt : i.toNat < l.length) : (idxGet l i).isSome := by
  simp only [idxGet, if_pos h0]
  exact Option.isSome_iff_exists.mpr
    ⟨l.get ⟨i.toNat, hlt⟩, (List.get?_eq_get hlt)⟩

lemma resampleAt_isSome (input : List ℚ) (n : ℕ) (i : ℕ)
    (hn : 2 ≤ n) (hlen : 1 ≤ input.length) (hi : i < n) :
    (resampleAt input (((input.length : ℚ) - 1) / ((n : ℚ) - 1)) i).isSome := by
  set L := input.length with hL
  set step : ℚ := ((L : ℚ) - 1) / ((n : ℚ) - 1) with hstep
  have hn1 : (0 : ℚ) < (n : ℚ) - 1 := by
    have : (2 : ℚ) ≤ (n : ℚ) := by exact_mod_cast hn
    linarith
  have hstep_nonneg : 0 ≤ step := by
    apply div_nonneg
    · have : (1 : ℚ) ≤ (L : ℚ) := by exact_mod_cast hlen
      linarith
    · linarith
  have hidx_nonneg : 0 ≤ (i : ℚ) * step :=
    mul_nonneg (by positivity) hstep_nonneg
  have hidx_le : (i : ℚ) * step ≤ (L : ℚ) - 1 := by
    have hi' : (i : ℚ) ≤ (n : ℚ) - 1 := by
      have : (i : ℚ) + 1 ≤ (n : ℚ) := by exact_mod_cast hi
      linarith
    have := mul_le_mul_of_nonneg_right hi' hstep_nonneg
    calc (i : ℚ) * step ≤ ((n : ℚ) - 1) * step := this
      _ = (L : ℚ) - 1 := by
          rw [hstep, mul_div_cancel₀ _ (ne_of_gt hn1)]
  -- bounds on floor and ceil of the interpolation index
  have hfloor0 : 0 ≤ ⌊(i : ℚ) * step⌋ := Int.le_floor.mpr (by simpa using hidx_nonneg)
  have hceil_le : ⌈(i : ℚ) * step⌉ ≤ (L : ℤ) - 1 := by
    apply Int.ceil_le.mpr
    have : ((L : ℤ) - 1 : ℤ) = ((L : ℚ) - 1 : ℚ) := by push_cast; ring
    rw [this]
    exact hidx_le
  have hceil0 : 0 ≤ ⌈(i : ℚ) * step⌉ := le_trans hfloor0 (Int.floor_le_ceil _)
  have hfloor_le : ⌊(i : ℚ) * step⌋ ≤ (L : ℤ) - 1 :=
    le_trans (Int.floor_le_ceil _) hceil_le
  have hfloor_lt : (⌊(i : ℚ) * step⌋).toNat < L := by
    have h1 : (1 : ℤ) ≤ (L : ℤ) := by exact_mod_cast hlen
    omega
  have hceil_lt : (⌈(i : ℚ) * step⌉).toNat < L := by
    have h1 : (1 : ℤ) ≤ (L : ℤ) := by exact_mod_cast hlen
    omega
  unfold resampleAt
  by_cases hfc : ⌊(i : ℚ) * step⌋ = ⌈(i : ℚ) * step⌉
  · simpa [hfc] using idxGet_isSome input _ hceil0 hceil_lt
  · have hl := idxGet_isSome input _ hfloor0 hfloor_lt
    have hr := idxGet_isSome input _ hceil0 hceil_lt
    obtain ⟨lv, hlv⟩ := Option.isSome_iff_exists.mp hl
    obtain ⟨rv, hrv⟩ := Option.isSome_iff_exists.mp hr
    simp [hfc, hlv, hrv]

/-- C9: with upsampling enabled, every index the interpolation loop reads is
in bounds for a non-empty input and `n ≥ 1`, so the `Option`-indexed embedding
never takes the out-of-range branch and the output has exactly `n` samples. -/
theorem resample_safe (input : List ℚ) (n : ℕ)
    (hn : 1 ≤ n) (hlen : 1 ≤ input.length) :
    ∃ l, resample input n true = some l ∧ l.length = n := by
  unfold resample
  by_cases hln : input.length = n
  · exact ⟨input, by simp [hln], hln⟩
  · by_cases hn1 : n = 1
    · subst hn1
      have hlen2 : 2 ≤ input.length := by omega
      have hmid : ⌊((input.length : ℚ) - 1) / 2⌋ =
          (((input.length - 1) / 2 : ℕ) : ℤ) := by
        have hcast : ((input.length : ℚ) - 1) = ((input.length - 1 : ℕ) : ℚ) := by
          push_cast [Nat.cast_sub hlen]
          ring
        rw [hcast]
        refine Int.floor_eq_iff.mpr ⟨?_, ?_⟩
        · rw [le_div_iff₀ (by norm_num : (0:ℚ) < 2)]
          push_cast
          exact_mod_cast Nat.div_mul_le_self (input.length - 1) 2
        · rw [div_lt_iff₀ (by norm_num : (0:ℚ) < 2)]
          have : input.length - 1 < ((input.length - 1) / 2 + 1) * 2 := by omega
          push_cast
          exact_mod_cast this
      have hlt : ((input.length - 1) / 2 : ℕ) < input.length := by omega
      have hs := idxGet_isSome input (((input.length - 1) / 2 : ℕ)) (by positivity)
        (by simpa using hlt)
      obtain ⟨v, hv⟩ := Option.isSome_iff_exists.mp hs
      refine ⟨[v], ?_, rfl⟩
      simp only [resample, hln, if_false, if_true, Bool.true_eq_false,
        false_and, hmid, hv]
      rfl
    · have hn2 : 2 ≤ n := by omega
      have hall : ∀ i ∈ List.range n,
          (resampleAt input (((input.length : ℚ) - 1) / ((n : ℚ) - 1)) i).isSome := by
        intro i hi
        exact resampleAt_isSome input n i hn2 hlen (List.mem_range.mp hi)
      have hmap := mapOpt_eq_map _ (List.range n) hall
      refine ⟨(List.range n).map
          (fun i => (resampleAt input (((input.length : ℚ) - 1) / ((n : ℚ) - 1)) i).getD 0),
        ?_, by simp⟩
      simp only [Bool.true_eq_false, false_and, if_false, hln, hn1]
      exact hmap

/-- C9 witness: the safety law applied to a concrete input. -/
theorem resample_safe_witness :
    (resample [(1 : ℚ), 2, 3] 2 true).map List.length = some 2 := by
  obtain ⟨l, hl, hlen⟩ := resample_safe [(1 : ℚ), 2, 3] 2
    (by norm_num) (by norm_num)
  rw [hl, Option.map_some', hlen]

lemma floor_halfPred (L : ℕ) (h : 1 ≤ L) :
    ⌊((L : ℚ) - 1) / 2⌋ = (((L - 1) / 2 : ℕ) : ℤ) := by
  have hcast : ((L : ℚ) - 1) = ((L - 1 : ℕ) : ℚ) := by
    push_cast [Nat.cast_sub h]
    ring
  rw [hcast]
  refine Int.floor_eq_iff.mpr ⟨?_, ?_⟩
  · rw [le_div_iff₀ (by norm_num : (0:ℚ) < 2)]
    push_cast
    exact_mod_cast Nat.div_mul_le_self (L - 1) 2
  · rw [div_lt_iff₀ (by norm_num : (0:ℚ) < 2)]
    have : L - 1 < ((L - 1) / 2 + 1) * 2 := by omega
    push_cast
    exact_mod_cast this

lemma idxGet_natCast (l : List ℚ) (k : ℕ) : idxGet l (k : ℤ) = l.get? k := by
  simp [idxGet]

lemma resampleAt_zero (input : List ℚ) (step : ℚ) :
    resampleAt input step 0 = input.get? 0 := by
  simp [resampleAt, idxGet]

lemma resampleAt_last (input : List ℚ) (n : ℕ) (hn : 2 ≤ n)
    (hlen : 1 ≤ input.length) :
    resampleAt input (((input.length : ℚ) - 1) / ((n : ℚ) - 1)) (n - 1) =
      input.get? (input.length - 1) := by
  have hn1 : ((n : ℚ) - 1) ≠ 0 := by
    have h2 : (2 : ℚ) ≤ (n : ℚ) := by exact_mod_cast hn
    intro hc
    have : (n : ℚ) = 1 := by linarith
    linarith
  have hidx : ((n - 1 : ℕ) : ℚ) * (((input.length : ℚ) - 1) / ((n : ℚ) - 1)) =
      ((input.length - 1 : ℕ) : ℚ) := by
    have hc1 : ((n - 1 : ℕ) : ℚ) = (n : ℚ) - 1 := by
      push_cast [Nat.cast_sub (by omega : 1 ≤ n)]; ring
    have hc2 : ((input.length - 1 : ℕ) : ℚ) = (input.length : ℚ) - 1 := by
      push_cast [Nat.cast_sub hlen]; ring
    rw [hc1, hc2, mul_div_cancel₀ _ hn1]
  unfold resampleAt
  rw [hidx]
  simp [Int.floor_natCast, Int.ceil_natCast, idxGet_natCast]

lemma get?_eq_some_getD (l : List ℚ) (k : ℕ) (h : k < l.length) :
    l.get? k = some (l.getD k 0) := by
  rw [List.get?_eq_getElem?, List.getD_eq_getElem?_getD,
    List.getElem?_eq_getElem h]
  rfl

lemma getLast?_eq_get?_pred (l : List ℚ) :
    l.getLast? = l.get? (l.length - 1) := by
  induction l with
  | nil => rfl
  | cons a as ih =>
    cases as with
    | nil => rfl
    | cons b bs =>
      rw [List.getLast?_cons_cons, ih]
      simp

/-- C6: `resample` returns a copy when `n = len`, the middle element when
`n = 1`, preserves the first and last samples for `n ≥ 2`, and maps the
eleven evenly spaced values `0,10,…,100` at `n = 5` exactly to
`[0,25,50,75,100]`. -/
theorem resample_laws :
    (∀ x : List ℚ, resample x x.length = some x) ∧
    (∀ x : List ℚ, 1 ≤ x.length →
      resample x 1 = some [x.getD ((x.length - 1) / 2) 0]) ∧
    (∀ (x : List ℚ) (n : ℕ), 2 ≤ n → 1 ≤ x.length →
      ∃ l, resample x n = some l ∧ l.head? = x.head? ∧
        l.getLast? = x.getLast?) ∧
    resample [0, 10, 20, 30, 40, 50, 60, 70, 80, 90, 100] 5 =
      some [0, 25, 50, 75, 100] := by
  refine ⟨fun x => by simp [resample], ?_, ?_, ?_⟩
  · intro x hlen
    by_cases h1 : x.length = 1
    · obtain ⟨v, rfl⟩ := List.length_eq_one.mp h1
      simp [resample]
    · have hk : ((x.length - 1) / 2 : ℕ) < x.length := by omega
      have hget := get?_eq_some_getD x ((x.length - 1) / 2) hk
      simp only [resample, h1, Bool.true_eq_false, false_and, if_false,
        floor_halfPred x.length hlen, idxGet_natCast, hget]
      rfl
  · intro x n hn hlen
    by_cases hln : x.length = n
    · exact ⟨x, by simp [resample, hln], rfl, rfl⟩
    · have hn1 : n ≠ 1 := by omega
      have hall : ∀ i ∈ List.range n,
          (resampleAt x (((x.length : ℚ) - 1) / ((n : ℚ) - 1)) i).isSome :=
        fun i hi => resampleAt_isSome x n i hn hlen (List.mem_range.mp hi)
      have hmap := mapOpt_eq_map _ (List.range n) hall
      set g : ℕ → ℚ :=
        fun i => (resampleAt x (((x.length : ℚ) - 1) / ((n : ℚ) - 1)) i).getD 0
        with hg
      refine ⟨(List.range n).map g, ?_, ?_, ?_⟩
      · simp only [resample, Bool.true_eq_false, false_and, if_false, hln, hn1]
        exact hmap
      · -- first output equals first input
        obtain ⟨m, rfl⟩ : ∃ m, n = m + 1 := ⟨n - 1, by omega⟩
        rw [List.range_succ_eq_map]
        obtain ⟨a, xs, rfl⟩ := List.exists_cons_of_ne_nil
          (List.length_pos.mp (by omega : 0 < x.length))
        simp [hg, resampleAt_zero]
      · -- last output equals last input
        obtain ⟨m, rfl⟩ : ∃ m, n = m + 1 := ⟨n - 1, by omega⟩
        rw [List.range_succ, List.map_append, List.map_cons, List.map_nil,
          List.getLast?_concat, getLast?_eq_get?_pred x]
        have hlast := resampleAt_last x (m + 1) hn hlen
        simp only [Nat.add_sub_cancel] at hlast
        have hget := get?_eq_some_getD x (x.length - 1)
          (by omega : x.length - 1 < x.length)
        simp only [hg]
        rw [hlast, hget]
        rfl
  · -- the concrete 0,10,...,100 scenario
    have hc1 : (⌈(5:ℚ)/2⌉ : ℤ) = 3 := by
      rw [Int.ceil_eq_iff]
      norm_num
    have hc3 : (⌈(15:ℚ)/2⌉ : ℤ) = 8 := by
      rw [Int.ceil_eq_iff]
      norm_num
    have e0 : resampleAt [0, 10, 20, 30, 40, 50, 60, 70, 80, 90, 100]
        (5/2) 0 = some 0 := by
      norm_num [resampleAt, idxGet]
    have e1 : resampleAt [0, 10, 20, 30, 40, 50, 60, 70, 80, 90, 100]
        (5/2) 1 = some 25 := by
      norm_num [resampleAt, idxGet, hc1]
      norm_num [show Int.toNat 2 = 2 from rfl, show Int.toNat 3 = 3 from rfl]
    have e2 : resampleAt [0, 10, 20, 30, 40, 50, 60, 70, 80, 90, 100]
        (5/2) 2 = some 50 := by
      norm_num [resampleAt, idxGet]
      norm_num [show Int.toNat 5 = 5 from rfl]
    have e3 : resampleAt [0, 10, 20, 30, 40, 50, 60, 70, 80, 90, 100]
        (5/2) 3 = some 75 := by
      norm_num [resampleAt, idxGet, hc3]
      norm_num [show Int.toNat 7 = 7 from rfl, show Int.toNat 8 = 8 from rfl]
    have e4 : resampleAt [0, 10, 20, 30, 40, 50, 60, 70, 80, 90, 100]
        (5/2) 4 = some 100 := by
      norm_num [resampleAt, idxGet]
      norm_num [show Int.toNat 10 = 10 from rfl]
    have hstep : ((([0, 10, 20, 30, 40, 50, 60, 70, 80, 90, 100] :
        List ℚ).length : ℚ) - 1) / ((5:ℚ) - 1) = 5/2 := by
      norm_num
    simp only [resample, List.length_cons, List.length_nil]
    norm_num [hstep, List.range_succ, mapOpt, e0, e1, e2, e3, e4]

/-- C6 witness: the middle-element law applied to a concrete list. -/
theorem resample_laws_witness : resample [(5 : ℚ), 7, 9] 1 = some [7] := by
  have h := resample_laws.2.1 [(5 : ℚ), 7, 9] (by norm_num)
  simpa using h

/-! ### Filter engine (src/lib/filters/IIRFilter.ts, utils.ts)

An `IIRFilter` owns a cascade `cf` of biquad stages; each stage carries the
coefficients `b0 b1 b2 a1 a2 k` (real parts, as used by `runStage`) and the
two-element delay state `z`.  Stepping threads a sample through every stage
in order; `runMultiFilter` iterates forward over the input,
`runMultiFilterReverse` iterates from the last sample down to the first and
writes each output at the matching index. -/

/-- One biquad stage of the cascade (`ComplexBiquad`, real parts). -/
structure Biquad where
  b0 : ℚ
  b1 : ℚ
  b2 : ℚ
  a1 : ℚ
  a2 : ℚ
  k : ℚ
  z0 : ℚ
  z1 : ℚ
deriving DecidableEq

/-- `runStage`: direct-form biquad recursion; shifts `z1 ← z0, z0 ← temp`. -/
def runStage (s : Biquad) (input : ℚ) : ℚ × Biquad :=
  let temp := input * s.k - s.a1 * s.z0 - s.a2 * s.z1
  let output := s.b0 * temp + s.b1 * s.z0 + s.b2 * s.z1
  (output, { s with z1 := s.z0, z0 := temp })

/-- `doStep`: fold the sample through every stage in cascade order. -/
def doStep : List Biquad → ℚ → ℚ × List Biquad
  | [], x => (x, [])
  | s :: rest, x =>
    let (y, s') := runStage s x
    let (out, rest') := doStep rest y
    (out, s' :: rest')

/-- `runMultiFilter`: apply `doStep` to each input sample in order. -/
def runMultiFilter : List ℚ → List Biquad → List ℚ × List Biquad
  | [], f => ([], f)
  | x :: xs, f =>
    let (y, f') := doStep f x
    let (ys, f'') := runMultiFilter xs f'
    (y :: ys, f'')

/-- `runMultiFilterReverse`: apply `doStep` from the last sample down to the
first, writing each output at the matching index — i.e. process the reversed
input and reverse the outputs back. -/
def runMultiFilterReverse (input : List ℚ) (f : List Biquad) :
    List ℚ × List Biquad :=
  let (outRev, f') := runMultiFilter input.reverse f
  (outRev.reverse, f')

/-- `IIRFilter.singleStep`. -/
def singleStep (f : List Biquad) (input : ℚ) : ℚ × List Biquad :=
  doStep f input

/-- `IIRFilter.multiStep`. -/
def multiStep (f : List Biquad) (input : List ℚ) : List ℚ × List Biquad :=
  runMultiFilter input f

/-- `IIRFilter.filtfilt`: the forward pass and the reverse pass both use the
engine's one cascade `cf`; the state left by the forward pass is what the
reverse pass starts from. -/
def filtfilt (f : List Biquad) (input : List ℚ) : List ℚ × List Biquad :=
  let (fwd, f1) := runMultiFilter input f
  runMultiFilterReverse fwd f1

/-- `IIRFilter.reinit`: zero every stage's delay state. -/
def reinit (f : List Biquad) : List Biquad :=
  f.map fun s => { s with z0 := 0, z1 := 0 }

/-- The claim's reading of `filtfilt` (from the spec's words): the reverse
pass runs over the forward result with every stage's delay state freshly
zeroed. -/
def filtfiltSpecFresh (f : List Biquad) (input : List ℚ) : List ℚ :=
  let (fwd, f1) := runMultiFilter input f
  (runMultiFilterReverse fwd (reinit f1)).1

/-- Coefficient projection of a cascade: everything except the delay state. -/
def coeffsOf (f : List Biquad) : List (ℚ × ℚ × ℚ × ℚ × ℚ × ℚ) :=
  f.map fun s => (s.b0, s.b1, s.b2, s.a1, s.a2, s.k)

lemma coeffsOf_cons (s : Biquad) (l : List Biquad) :
    coeffsOf (s :: l) = (s.b0, s.b1, s.b2, s.a1, s.a2, s.k) :: coeffsOf l :=
  rfl

lemma coeffsOf_doStep (f : List Biquad) (x : ℚ) :
    coeffsOf (doStep f x).2 = coeffsOf f := by
  induction f generalizing x with
  | nil => rfl
  | cons s rest ih =>
    have hstep : doStep (s :: rest) x =
        ((doStep rest (runStage s x).1).1,
          (runStage s x).2 :: (doStep rest (runStage s x).1).2) := rfl
    rw [hstep, coeffsOf_cons, coeffsOf_cons, ih (runStage s x).1]
    simp [runStage]

lemma coeffsOf_runMultiFilter (xs : List ℚ) (f : List Biquad) :
    coeffsOf (runMultiFilter xs f).2 = coeffsOf f := by
  induction xs generalizing f with
  | nil => rfl
  | cons x xs ih =>
    simp only [runMultiFilter]
    rw [ih]
    exact coeffsOf_doStep f x

lemma coeffsOf_reinit (f : List Biquad) : coeffsOf (reinit f) = coeffsOf f := by
  simp [coeffsOf, reinit]

/-- `reinit` of a cascade is determined by its coefficients alone. -/
lemma reinit_eq_of_coeffsOf_eq (f g : List Biquad)
    (h : coeffsOf f = coeffsOf g) : reinit f = reinit g := by
  induction f generalizing g with
  | nil =>
    cases g with
    | nil => rfl
    | cons s gs => simp [coeffsOf] at h
  | cons s fs ih =>
    cases g with
    | nil => simp [coeffsOf] at h
    | cons t gs =>
      simp only [coeffsOf, List.map_cons, List.cons.injEq, Prod.mk.injEq] at h
      obtain ⟨⟨hb0, hb1, hb2, ha1, ha2, hk⟩, htl⟩ := h
      simp only [reinit, List.map_cons, List.cons.injEq]
      constructor
      · cases s; cases t
        simp_all
      · exact ih gs htl

lemma reinit_of_zero (f : List Biquad)
    (h : ∀ s ∈ f, s.z0 = 0 ∧ s.z1 = 0) : reinit f = f := by
  induction f with
  | nil => rfl
  | cons s fs ih =>
    have hs := h s (List.mem_cons_self s fs)
    simp only [reinit, List.map_cons, List.cons.injEq]
    constructor
    · cases s
      simp_all
    · exact ih fun t ht => h t (List.mem_cons_of_mem s ht)

/-- C10: every stepping operation of the engine — `singleStep`, `multiStep`,
`filtfilt` and `reinit` — leaves every stage's coefficients `b0 b1 b2 a1 a2 k`
unchanged; only the delay state `z` is mutated. -/
theorem step_frame (f : List Biquad) (x : ℚ) (xs : List ℚ) :
    coeffsOf (singleStep f x).2 = coeffsOf f ∧
    coeffsOf (multiStep f xs).2 = coeffsOf f ∧
    coeffsOf (filtfilt f xs).2 = coeffsOf f ∧
    coeffsOf (reinit f) = coeffsOf f := by
  refine ⟨coeffsOf_doStep f x, coeffsOf_runMultiFilter xs f, ?_,
    coeffsOf_reinit f⟩
  unfold filtfilt runMultiFilterReverse
  rw [coeffsOf_runMultiFilter, coeffsOf_runMultiFilter]

/-- C7: running `multiStep` after `reinit` on an engine that has processed
arbitrary prior samples gives the same output as running `multiStep` on a
freshly constructed engine (all delay state zero) with the same coefficients. -/
theorem reinit_resets (f : List Biquad) (prior input : List ℚ)
    (hfresh : ∀ s ∈ f, s.z0 = 0 ∧ s.z1 = 0) :
    (multiStep (reinit (multiStep f prior).2) input).1 =
      (multiStep f input).1 := by
  have h1 : reinit (multiStep f prior).2 = reinit f :=
    reinit_eq_of_coeffsOf_eq _ _ (coeffsOf_runMultiFilter prior f)
  rw [h1, reinit_of_zero f hfresh]

/-- C7 witness: one stage with feedback, concrete history and input. -/
theorem reinit_resets_witness :
    (multiStep (reinit (multiStep [⟨1, 0, 0, 1, 0, 1, 0, 0⟩]
        [3, 1]).2) [1, 2]).1 =
      (multiStep [⟨1, 0, 0, 1, 0, 1, 0, 0⟩] [1, 2]).1 :=
  reinit_resets [⟨1, 0, 0, 1, 0, 1, 0, 0⟩] [3, 1] [1, 2]
    (by intro s hs; simp at hs; simp [hs])

/-- The cascade and input exhibiting that `filtfilt` does not reset the
delay state between the two passes. -/
def c1Stage : Biquad := ⟨1, 0, 0, 1, 0, 1, 0, 0⟩

set_option maxRecDepth 4000 in
/-- C1 counterexample: on the one-stage cascade `b = [1,0,0]`, `a = [1,0]`,
`k = 1` with input `[1, 0]`, the code's `filtfilt` yields `[1, 0]` while the
claimed fresh-state reverse pass yields `[2, -1]`. -/
theorem filtfilt_not_fresh :
    (filtfilt [c1Stage] [1, 0]).1 ≠ filtfiltSpecFresh [c1Stage] [1, 0] := by
  have hcode : (filtfilt [c1Stage] [1, 0]).1 = [1, 0] := by
    norm_num [filtfilt, runMultiFilter, runMultiFilterReverse, doStep,
      runStage, c1Stage]
  have hspec : filtfiltSpecFresh [c1Stage] [1, 0] = [2, -1] := by
    norm_num [filtfiltSpecFresh, runMultiFilter, runMultiFilterReverse,
      reinit, doStep, runStage, c1Stage]
  rw [hcode, hspec]
  intro h
  simp only [List.cons.injEq] at h
  exact absurd h.1 (by norm_num)

/-- C1 (amended): `filtfilt` runs the cascade forward over the whole input
and then runs the reverse-order pass over the forward result starting from
the delay state the forward pass left behind — the reverse pass is not
reinitialised. -/
theorem filtfilt_carries_state (f : List Biquad) (input : List ℚ) :
    filtfilt f input =
      runMultiFilterReverse (runMultiFilter input f).1
        (runMultiFilter input f).2 := by
  unfold filtfilt
  rfl

/-! ### EDF header decoder (src/lib/edf/edfreader.ts)

The byte buffer is a `List ℕ` of byte values; decoded text is kept as the
byte list.  The `ascii` `TextDecoder` (windows-1252) maps every byte below
`0x80` — all bytes the parsers classify: digits, signs, whitespace, the
field markers — and the no-break space `0xA0` to the identical code point,
so byte-level parsing agrees with the source's string-level parsing.
JavaScript numbers produced by `parseInt`/`parseFloat` are modelled by
`JSNumber`: `nan` for `NaN`, `inf` for the infinities, `fin q` for a finite
value (exact, since every parsed literal is a decimal fraction).  The
`startTime` field, produced by the external `date-fns` parser in the
source, is modelled by the two trimmed date/time strings it is built
from. -/

/-- A JavaScript `number` as produced by the strict text parsers. -/
inductive JSNumber where
  | nan : JSNumber
  | inf : Bool → JSNumber
  | fin : ℚ → JSNumber
deriving DecidableEq

/-- JavaScript whitespace bytes in the latin-1 range (`\s`). -/
def isSpaceByte (b : ℕ) : Bool :=
  b = 32 || (9 ≤ b && b ≤ 13) || b = 160

/-- `String.prototype.trim`. -/
def trimBytes (l : List ℕ) : List ℕ :=
  ((l.dropWhile isSpaceByte).reverse.dropWhile isSpaceByte).reverse

/-- `substring`/`subarray` from `a` (inclusive) to `b` (exclusive). -/
def slice (l : List ℕ) (a b : ℕ) : List ℕ :=
  (l.drop a).take (b - a)

def listStartsWith : List ℕ → List ℕ → Bool
  | [], _ => true
  | _ :: _, [] => false
  | p :: ps, b :: bs => (p == b) && listStartsWith ps bs

def decDigit? (b : ℕ) : Option ℕ :=
  if 48 ≤ b ∧ b ≤ 57 then some (b - 48) else none

def hexDigit? (b : ℕ) : Option ℕ :=
  if 48 ≤ b ∧ b ≤ 57 then some (b - 48)
  else if 65 ≤ b ∧ b ≤ 70 then some (b - 55)
  else if 97 ≤ b ∧ b ≤ 102 then some (b - 87)
  else none

/-- Longest prefix of digits (as values) and the remaining bytes. -/
def takeDigits (digit? : ℕ → Option ℕ) : List ℕ → List ℕ × List ℕ
  | [] => ([], [])
  | b :: bs =>
    match digit? b with
    | some d =>
      let (ds, rest) := takeDigits digit? bs
      (d :: ds, rest)
    | none => ([], b :: bs)

def digitsVal (base : ℕ) (ds : List ℕ) : ℕ :=
  ds.foldl (fun acc d => acc * base + d) 0

/-- Leading-sign split shared by the numeric parsers: `+` (43) or `-` (45). -/
def signSplit (l : List ℕ) : Bool × List ℕ :=
  match l with
  | 43 :: rest => (false, rest)
  | 45 :: rest => (true, rest)
  | _ => (false, l)

/-- Whether the remaining text begins with the `0x`/`0X` hex prefix. -/
def hexMark : List ℕ → Bool
  | b :: x :: _ => b == 48 && (x == 120 || x == 88)
  | _ => false

/-- JavaScript `parseInt` (no radix argument): skip whitespace, optional
sign, `0x`/`0X` hex prefix, then the longest digit prefix; no digits is
`NaN`. -/
def jsParseInt (s : List ℕ) : JSNumber :=
  let t := s.dropWhile isSpaceByte
  let neg := (signSplit t).1
  let t1 := (signSplit t).2
  if hexMark t1 then
    let ds := (takeDigits hexDigit? (t1.drop 2)).1
    if ds = [] then .nan
    else .fin (if neg then -(digitsVal 16 ds : ℚ) else (digitsVal 16 ds : ℚ))
  else
    let ds := (takeDigits decDigit? t1).1
    if ds = [] then .nan
    else .fin (if neg then -(digitsVal 10 ds : ℚ) else (digitsVal 10 ds : ℚ))

/-- JavaScript `parseFloat`: skip whitespace, optional sign, `Infinity`, or
integer part, optional fraction, optional exponent (consumed only when at
least one exponent digit follows); no mantissa digits is `NaN`. -/
def jsParseFloat (s : List ℕ) : JSNumber :=
  let t := s.dropWhile isSpaceByte
  let (neg, t1) := signSplit t
  if listStartsWith [73, 110, 102, 105, 110, 105, 116, 121] t1 then .inf (!neg)
  else
    let (ip, r1) := takeDigits decDigit? t1
    let (fp, r2) :=
      match r1 with
      | 46 :: rest => takeDigits decDigit? rest
      | _ => ([], r1)
    if ip = [] ∧ fp = [] then .nan
    else
      let mant : ℚ :=
        (digitsVal 10 ip : ℚ) + (digitsVal 10 fp : ℚ) / (10 : ℚ) ^ fp.length
      let ex : ℤ :=
        match r2 with
        | e :: rest =>
          if e = 101 ∨ e = 69 then
            let (eneg, r3) := signSplit rest
            let (eds, _) := takeDigits decDigit? r3
            if eds = [] then 0
            else if eneg then -(digitsVal 10 eds : ℤ) else (digitsVal 10 eds : ℤ)
          else 0
        | _ => 0
      .fin ((if neg then -mant else mant) * (10 : ℚ) ^ ex)

/-- Per-signal metadata (`EDFSignal`); text fields are kept as trimmed byte
strings, numeric fields as the `JSNumber` the source's parse produced. -/
structure EDFSignal where
  label : List ℕ
  transducerType : List ℕ
  physicalDimension : List ℕ
  physicalMin : JSNumber
  physicalMax : JSNumber
  digitalMin : JSNumber
  digitalMax : JSNumber
  prefiltering : List ℕ
  samplesPerRecord : JSNumber
  reserved : List ℕ
deriving DecidableEq

/-- The decoded header (`EDFHeader`). -/
structure EDFHeader where
  version : List ℕ
  patientId : List ℕ
  recordingId : List ℕ
  startDateStr : List ℕ
  startTimeStr : List ℕ
  headerBytes : JSNumber
  reserved : List ℕ
  dataRecords : JSNumber
  recordDuration : JSNumber
  signalCount : JSNumber
  signals : List EDFSignal
deriving DecidableEq

/-- `EDFReader.readFieldText`: the per-signal fields are column-interleaved,
so field bytes live at `256 + start*signalCount + (end-start)*signalIndex`. -/
def readFieldText (bytes : List ℕ) (signalCount start endPos signalIndex : ℕ) :
    List ℕ :=
  let offset := 256 + start * signalCount + (endPos - start) * signalIndex
  slice bytes offset (offset + (endPos - start))

/-- Body of the per-signal loop of `readHeader`. -/
def readSignalDescriptor (bytes : List ℕ) (sc i : ℕ) : EDFSignal :=
  { label := trimBytes (readFieldText bytes sc 0 16 i)
    transducerType := trimBytes (readFieldText bytes sc 16 96 i)
    physicalDimension := trimBytes (readFieldText bytes sc 96 104 i)
    physicalMin := jsParseFloat (readFieldText bytes sc 104 112 i)
    physicalMax := jsParseFloat (readFieldText bytes sc 112 120 i)
    digitalMin := jsParseInt (readFieldText bytes sc 120 128 i)
    digitalMax := jsParseInt (readFieldText bytes sc 128 136 i)
    prefiltering := trimBytes (readFieldText bytes sc 136 216 i)
    samplesPerRecord := jsParseInt (readFieldText bytes sc 216 224 i)
    reserved := trimBytes (readFieldText bytes sc 224 256 i) }

/-- Number of iterations of `for (let i = 0; i < signalCount; i++)` when
`signalCount` holds the given parsed value. -/
def jsLoopCount : JSNumber → ℕ
  | .fin q => (⌈q⌉).toNat
  | _ => 0

/-- The `"EDF+D"` marker bytes. -/
def edfdMarker : List ℕ := [69, 68, 70, 43, 68]

/-- `EDFReader.readHeader`'s parse of the byte buffer.  The only failure is
the discontinuous-recording marker; numeric fields go through
`parseInt`/`parseFloat`, which yield `NaN` (never an error) on non-numeric
text. -/
def parseHeader (bytes : List ℕ) : Except String EDFHeader :=
  let headerText := slice bytes 0 256
  let version := trimBytes (slice headerText 0 8)
  let patientId := trimBytes (slice headerText 8 88)
  let recordingId := trimBytes (slice headerText 88 168)
  let startDateStr := trimBytes (slice headerText 168 176)
  let startTimeStr := trimBytes (slice headerText 176 184)
  let headerBytes := jsParseInt (trimBytes (slice headerText 184 192))
  let reserved := trimBytes (slice headerText 192 236)
  if listStartsWith edfdMarker reserved then
    .error "discontinuous recordings not supported"
  else
    let dataRecords := jsParseInt (trimBytes (slice headerText 236 244))
    let recordDuration := jsParseFloat (trimBytes (slice headerText 244 252))
    let signalCount := jsParseInt (trimBytes (slice headerText 252 256))
    let sc := jsLoopCount signalCount
    let signals := (List.range sc).map (readSignalDescriptor bytes sc)
    .ok { version := version, patientId := patientId,
          recordingId := recordingId, startDateStr := startDateStr,
          startTimeStr := startTimeStr, headerBytes := headerBytes,
          reserved := reserved, dataRecords := dataRecords,
          recordDuration := recordDuration, signalCount := signalCount,
          signals := signals }

/-- `EDFReader.digitalToPhysical` at finite field values (JS `===` on finite
doubles is numeric equality). -/
def digitalToPhysical (digital dmin dmax pmin pmax : ℚ) : ℚ :=
  if dmax = dmin then 0
  else pmin + (digital - dmin) * (pmax - pmin) / (dmax - dmin)

/-- C3: with `digitalMax ≠ digitalMin`, `digitalToPhysical` is the affine
calibration map — it sends `digitalMin` to `physicalMin`, `digitalMax` to
`physicalMax` and the digital midpoint to the physical midpoint; with
`digitalMax = digitalMin` it returns `0` for every input. -/
theorem digitalToPhysical_affine (d dmin dmax pmin pmax : ℚ) :
    (dmax ≠ dmin →
      digitalToPhysical d dmin dmax pmin pmax =
        pmin + (d - dmin) * (pmax - pmin) / (dmax - dmin) ∧
      digitalToPhysical dmin dmin dmax pmin pmax = pmin ∧
      digitalToPhysical dmax dmin dmax pmin pmax = pmax ∧
      digitalToPhysical ((dmin + dmax) / 2) dmin dmax pmin pmax =
        (pmin + pmax) / 2) ∧
    (dmax = dmin → digitalToPhysical d dmin dmax pmin pmax = 0) := by
  constructor
  · intro h
    have hne : dmax - dmin ≠ 0 := sub_ne_zero.mpr h
    refine ⟨by rw [digitalToPhysical, if_neg h], ?_, ?_, ?_⟩ <;>
      · rw [digitalToPhysical, if_neg h]
        field_simp
        try ring
  · intro h
    rw [digitalToPhysical, if_pos h]

/-- C3 witness: the full-scale digital range mapped onto `[0, 100]`. -/
theorem digitalToPhysical_affine_witness :
    digitalToPhysical 10 0 10 0 100 = 100 :=
  ((digitalToPhysical_affine 10 0 10 0 100).1 (by norm_num)).2.2.1

/-- Buffer whose byte at index `k` is `k % 251`, used to separate the
column-major layout from a signal-major one. -/
def c4Buf : List ℕ := (List.range 600).map (fun k => k % 251)

set_option maxRecDepth 8000 in
/-- C4: for every buffer, signal count and signal index, `readHeader`
extracts each per-signal field from absolute offset
`256 + fieldStart*signalCount + fieldWidth*signalIndex` — the column-major
layout — with the `(fieldStart, fieldWidth)` table `label 0/16`,
`transducerType 16/80`, `physicalDimension 96/8`, `physicalMin 104/8`,
`physicalMax 112/8`, `digitalMin 120/8`, `digitalMax 128/8`,
`prefiltering 136/80`, `samplesPerRecord 216/8`, `reserved 224/32`; and on
a concrete buffer the column-major bytes differ from the signal-major
bytes. -/
theorem readHeader_columnMajor (bytes : List ℕ) (sc i : ℕ) :
    ((readSignalDescriptor bytes sc i).label =
      trimBytes (slice bytes (256 + 0 * sc + 16 * i)
        (256 + 0 * sc + 16 * i + 16)) ∧
    (readSignalDescriptor bytes sc i).transducerType =
      trimBytes (slice bytes (256 + 16 * sc + 80 * i)
        (256 + 16 * sc + 80 * i + 80)) ∧
    (readSignalDescriptor bytes sc i).physicalDimension =
      trimBytes (slice bytes (256 + 96 * sc + 8 * i)
        (256 + 96 * sc + 8 * i + 8)) ∧
    (readSignalDescriptor bytes sc i).physicalMin =
      jsParseFloat (slice bytes (256 + 104 * sc + 8 * i)
        (256 + 104 * sc + 8 * i + 8)) ∧
    (readSignalDescriptor bytes sc i).physicalMax =
      jsParseFloat (slice bytes (256 + 112 * sc + 8 * i)
        (256 + 112 * sc + 8 * i + 8)) ∧
    (readSignalDescriptor bytes sc i).digitalMin =
      jsParseInt (slice bytes (256 + 120 * sc + 8 * i)
        (256 + 120 * sc + 8 * i + 8)) ∧
    (readSignalDescriptor bytes sc i).digitalMax =
      jsParseInt (slice bytes (256 + 128 * sc + 8 * i)
        (256 + 128 * sc + 8 * i + 8)) ∧
    (readSignalDescriptor bytes sc i).prefiltering =
      trimBytes (slice bytes (256 + 136 * sc + 80 * i)
        (256 + 136 * sc + 80 * i + 80)) ∧
    (readSignalDescriptor bytes sc i).samplesPerRecord =
      jsParseInt (slice bytes (256 + 216 * sc + 8 * i)
        (256 + 216 * sc + 8 * i + 8)) ∧
    (readSignalDescriptor bytes sc i).reserved =
      trimBytes (slice bytes (256 + 224 * sc + 32 * i)
        (256 + 224 * sc + 32 * i + 32))) ∧
    readFieldText c4Buf 2 0 16 1 ≠
      slice c4Buf (256 + 256 * 1 + 0) (256 + 256 * 1 + 0 + 16) := by
  constructor
  · refine ⟨?_, ?_, ?_, ?_, ?_, ?_, ?_, ?_, ?_, ?_⟩ <;>
      · simp only [readSignalDescriptor, readFieldText]
        try norm_num
  · with_unfolding_all decide

/-- Right-pad a field with spaces to its fixed width. -/
def padTo (n : ℕ) (l : List ℕ) : List ℕ :=
  l ++ List.replicate (n - l.length) 32

/-- A 256-byte global header whose `headerBytes` field (offsets 184–192)
holds the given bytes; every other field is well-formed and
`signalCount = "0"`. -/
def headerBufWith (hb : List ℕ) : List ℕ :=
  padTo 8 [48] ++                             -- version "0"
  List.replicate 80 32 ++                     -- patientId (blank)
  List.replicate 80 32 ++                     -- recordingId (blank)
  [48, 49, 46, 48, 49, 46, 48, 48] ++         -- startDate "01.01.00"
  [49, 50, 46, 48, 48, 46, 48, 48] ++         -- startTime "12.00.00"
  padTo 8 hb ++                               -- headerBytes
  List.replicate 44 32 ++                     -- reserved (blank)
  padTo 8 [49] ++                             -- dataRecords "1"
  padTo 8 [49] ++                             -- recordDuration "1"
  padTo 4 [48]                                -- signalCount "0"

/-- A conformant header buffer (`headerBytes = "3328"`). -/
def goodBuf : List ℕ := headerBufWith [51, 51, 50, 56]

/-- The same buffer with a non-numeric `headerBytes` field `"XXXXXXXX"`. -/
def badBuf : List ℕ := headerBufWith (List.replicate 8 88)

def exceptHeaderBytes : Except String EDFHeader → Option JSNumber
  | .ok h => some h.headerBytes
  | .error _ => none

lemma takeDigits_fst_nil (digit? : ℕ → Option ℕ) (l : List ℕ)
    (h : ∀ b ∈ l, digit? b = none) : (takeDigits digit? l).1 = [] := by
  cases l with
  | nil => rfl
  | cons b bs => simp [takeDigits, h b (List.mem_cons_self b bs)]

lemma signSplit_snd_subset (l : List ℕ) (b : ℕ)
    (hb : b ∈ (signSplit l).2) : b ∈ l := by
  unfold signSplit at hb
  split at hb
  · exact List.mem_cons_of_mem _ hb
  · exact List.mem_cons_of_mem _ hb
  · exact hb

set_option maxRecDepth 40000 in
/-- C2 counterexample: on a buffer whose `headerBytes` field is
`"XXXXXXXX"`, `readHeader` does not fail with a decode error — it returns a
header whose `headerBytes` is `NaN`. -/
theorem readHeader_nonNumeric_counterexample :
    exceptHeaderBytes (parseHeader badBuf) = some JSNumber.nan := by
  with_unfolding_all rfl

/-- C2 (amended): a numeric header field that does not parse as a decimal
number does not make `readHeader` fail — the only decode failure is the
discontinuous-recording marker.  Each numeric field is stored exactly as
`parseInt`/`parseFloat` returns it, and on digit-free text that result is
`NaN`, never a silent zero. -/
theorem readHeader_nonNumeric_is_nan (bytes : List ℕ)
    (hres : listStartsWith edfdMarker
      (trimBytes (slice (slice bytes 0 256) 192 236)) = false) :
    (∃ h, parseHeader bytes = .ok h ∧
      h.headerBytes =
        jsParseInt (trimBytes (slice (slice bytes 0 256) 184 192)) ∧
      h.dataRecords =
        jsParseInt (trimBytes (slice (slice bytes 0 256) 236 244)) ∧
      h.recordDuration =
        jsParseFloat (trimBytes (slice (slice bytes 0 256) 244 252)) ∧
      h.signalCount =
        jsParseInt (trimBytes (slice (slice bytes 0 256) 252 256))) ∧
    (∀ s : List ℕ, (∀ b ∈ s, decDigit? b = none) → jsParseInt s = .nan) := by
  constructor
  · simp only [parseHeader, hres, Bool.false_eq_true, if_false]
    exact ⟨_, rfl, rfl, rfl, rfl, rfl⟩
  · intro s hnd
    have ht : ∀ b ∈ (signSplit (s.dropWhile isSpaceByte)).2,
        decDigit? b = none := by
      intro b hb
      exact hnd b ((List.dropWhile_sublist _).subset
        (signSplit_snd_subset _ b hb))
    have hhex : hexMark (signSplit (s.dropWhile isSpaceByte)).2 = false := by
      cases t1c : (signSplit (s.dropWhile isSpaceByte)).2 with
      | nil => rfl
      | cons b bs =>
        cases bs with
        | nil => rfl
        | cons x rest =>
          have hb : decDigit? b = none := ht b (t1c ▸ List.mem_cons_self b _)
          have hb48 : b ≠ 48 := by
            intro hc
            rw [hc] at hb
            simp [decDigit?] at hb
          simp [hexMark, hb48]
    simp only [jsParseInt, hhex, Bool.false_eq_true, if_false,
      takeDigits_fst_nil decDigit? _ ht, if_pos]

/-- C2 witness for the amended claim: digit-free text parses to `NaN`, and
on a conformant buffer the stored `headerBytes` is the field's parse. -/
theorem readHeader_nonNumeric_is_nan_witness :
    jsParseInt [88, 88] = JSNumber.nan ∧
    exceptHeaderBytes (parseHeader goodBuf) =
      some (jsParseInt (trimBytes (slice (slice goodBuf 0 256) 184 192))) := by
  have h := readHeader_nonNumeric_is_nan goodBuf (by with_unfolding_all rfl)
  refine ⟨h.2 [88, 88] ?_, ?_⟩
  · intro b hb
    have hb88 : b = 88 := by simpa using hb
    subst hb88
    rfl
  · obtain ⟨hh, hok, hb, _⟩ := h.1
    rw [hok, exceptHeaderBytes, hb]

/-! ### Memoization and aliasing of `readHeader` (C8)

`readHeader` caches `this.header`.  The source returns `_.cloneDeep` of the
freshly parsed header on the first call but returns the cached object
itself on every later call.  To observe aliasing, the decoder is modelled
with an explicit store of header objects: an address indexes `store`; the
first call allocates the internal header and a deep copy and returns the
copy's address; a later call returns the cached internal address.
`mutateHeader` is a caller mutating a returned header in place. -/

structure ReaderState where
  bytes : List ℕ
  store : List EDFHeader
  cacheAddr : Option ℕ
deriving DecidableEq

/-- One `readHeader()` call: returns the address of the header object the
caller receives, plus the decoder state after the call. -/
def readHeaderOp (s : ReaderState) : Except String (ℕ × ReaderState) :=
  match s.cacheAddr with
  | some a => .ok (a, s)
  | none =>
    match parseHeader s.bytes with
    | .error e => .error e
    | .ok h =>
      .ok (s.store.length + 1,
        { s with store := s.store ++ [h, h],
                 cacheAddr := some s.store.length })

def modifyNth (f : EDFHeader → EDFHeader) :
    List EDFHeader → ℕ → List EDFHeader
  | [], _ => []
  | x :: xs, 0 => f x :: xs
  | x :: xs, n + 1 => x :: modifyNth f xs n

/-- A caller mutating, in place, the header object at address `a`. -/
def mutateHeader (s : ReaderState) (a : ℕ) (f : EDFHeader → EDFHeader) :
    ReaderState :=
  { s with store := modifyNth f s.store a }

def headerAt (s : ReaderState) (a : ℕ) : Option EDFHeader := s.store.get? a

/-- Call `readHeader` twice, mutate the second returned header, call a third
time; yields the first call's result paired with the third call's result. -/
def c8Scenario : Option (EDFHeader × EDFHeader) :=
  match readHeaderOp ⟨goodBuf, [], none⟩ with
  | .ok (a1, s1) =>
    match readHeaderOp s1 with
    | .ok (a2, s2) =>
      let s3 := mutateHeader s2 a2 (fun h => { h with patientId := [88] })
      match readHeaderOp s3 with
      | .ok (a3, s4) =>
        match headerAt s1 a1, headerAt s4 a3 with
        | some h1, some h3 => some (h1, h3)
        | _, _ => none
      | .error _ => none
    | .error _ => none
  | .error _ => none

set_option maxRecDepth 40000 in
/-- C8 counterexample: after one successful `readHeader`, a repeated call
returns the internal memoized object; mutating it changes what the next
call returns, so the third call's header differs from the first result. -/
theorem readHeader_aliasing_counterexample :
    (c8Scenario.map fun p => decide (p.1 = p.2)) = some false := by
  with_unfolding_all rfl

/-- Decoder state after a first successful `readHeader`: the parsed header
is stored internally (and memoized) and a deep copy of it is stored for the
caller. -/
def afterFirstCall (s' : ReaderState) (h : EDFHeader) : ReaderState :=
  { s' with store := s'.store ++ [h, h], cacheAddr := some s'.store.length }

/-- C8 (amended): the first successful `readHeader` call stores the parsed
header and returns a separately stored deep copy of it (a distinct address
holding an equal value); every subsequent call returns the memoized
internal object itself, unchanged — so repeated calls agree only while the
caller does not mutate the returned object. -/
theorem readHeader_memoization (s : ReaderState) (a : ℕ) (h : EDFHeader)
    (hcache : s.cacheAddr = some a)
    (s' : ReaderState) (hnone : s'.cacheAddr = none)
    (hparse : parseHeader s'.bytes = .ok h) :
    readHeaderOp s = .ok (a, s) ∧
    readHeaderOp s' = .ok (s'.store.length + 1, afterFirstCall s' h) ∧
    headerAt (afterFirstCall s' h) (s'.store.length + 1) = some h ∧
    headerAt (afterFirstCall s' h) s'.store.length = some h ∧
    s'.store.length + 1 ≠ s'.store.length := by
  refine ⟨by simp [readHeaderOp, hcache],
    by simp [readHeaderOp, hnone, hparse, afterFirstCall],
    ?_, ?_, by omega⟩
  · simp only [headerAt, afterFirstCall, List.get?_eq_getElem?]
    rw [List.getElem?_eq_getElem (by simp),
      List.getElem_append_right (by omega)]
    simp
  · simp only [headerAt, afterFirstCall, List.get?_eq_getElem?]
    rw [List.getElem?_eq_getElem (by simp),
      List.getElem_append_right (by omega)]
    simp

/-- The header value `goodBuf` decodes to. -/
def goodHeader : EDFHeader :=
  { version := [48], patientId := [], recordingId := [],
    startDateStr := [48, 49, 46, 48, 49, 46, 48, 48],
    startTimeStr := [49, 50, 46, 48, 48, 46, 48, 48],
    headerBytes := .fin 3328, reserved := [], dataRecords := .fin 1,
    recordDuration := .fin 1, signalCount := .fin 0, signals := [] }

set_option maxRecDepth 40000 in
lemma parseHeader_goodBuf : parseHeader goodBuf = .ok goodHeader := by
  with_unfolding_all rfl

/-- C8 witness: the memoization law applied to a concrete cached decoder
and a concrete fresh decoder over the conformant buffer. -/
theorem readHeader_memoization_witness :
    readHeaderOp ⟨goodBuf, [], some 7⟩ =
      .ok (7, ⟨goodBuf, [], some 7⟩) :=
  (readHeader_memoization ⟨goodBuf, [], some 7⟩ 7 goodHeader rfl
    ⟨goodBuf, [], none⟩ rfl parseHeader_goodBuf).1

/-! ### Filter designer (src/lib/filters/IIRCascade.ts, IIRCoeffs.ts)

The designer is embedded over an arbitrary field `α` together with a record
`RealOps` of the transcendental functions it uses (`Math.sin`, `Math.cos`,
…), so every theorem below holds for any interpretation of those functions.
The static correction tables (`table`, `tiTable` from `IIRFilterTables`,
whose file is not part of the decompiled sources) are likewise parameters:
a per-characteristic entry of total functions indexed by `order-1` and
stage.  Optional JS parameters are `Option` values; JS truthiness (`!x`)
on a number is `none` or `some 0`. -/

/-- The real functions and constants used by the designer. -/
structure RealOps (α : Type) where
  pi : α
  ln2 : α
  sin : α → α
  cos : α → α
  tan : α → α
  sinh : α → α
  sqrt : α → α
  exp : α → α
  exp10 : α → α
  abs : α → α

/-- `FilterParams`: the per-stage parameter record handed to the biquad
formulas. -/
structure FilterParams (α : Type) where
  Fs : α
  Fc : α
  Q : Option α
  BW : Option α
  gain : Option α
  preGain : Bool
  as : Option α
  bs : Option α

/-- `FilterCoeffs`: one biquad coefficient set (`a`/`b` in push order,
`z = [0,0]`). -/
structure FilterCoeffs (α : Type) where
  a : List α
  b : List α
  z : List α
  a0 : Option α
  k : Option α
deriving DecidableEq

/-- JS truthiness of an optional numeric parameter. -/
def truthy {α : Type} [DecidableEq α] [OfNat α 0] (x : Option α) : Bool :=
  match x with
  | none => false
  | some v => if v = 0 then false else true

section Designer

variable {α : Type} [Field α] [DecidableEq α]

/-- `preCalc`: shared `w`/`alpha`/`cw`/`a0` computation plus the two
denominator coefficients it pushes. -/
def preCalc (ops : RealOps α) (p : FilterParams α) :
    Except String (α × α × α × List α) :=
  if truthy p.Q = false ∧ truthy p.BW = false then
    .error "Either Q or BW parameter is required"
  else
    let w := 2 * ops.pi * p.Fc / p.Fs
    let alpha :=
      if truthy p.BW then
        ops.sin w * ops.sinh (ops.ln2 / 2 * p.BW.getD 0 * w / ops.sin w)
      else ops.sin w / (2 * p.Q.getD 0)
    let cw := ops.cos w
    let a0 := 1 + alpha
    .ok (alpha, cw, a0, [-2 * cw / a0, (1 - alpha) / a0])

/-- `preCalcGain`: the gain-aware variant (`A = 10^(gain/40)`). -/
def preCalcGain (ops : RealOps α) (p : FilterParams α) :
    Except String (α × α × α) :=
  if truthy p.Q = false then
    .error "Q parameter is required for preCalcGain"
  else
    let w := 2 * ops.pi * p.Fc / p.Fs
    let alpha := ops.sin w / (2 * p.Q.getD 0)
    let cw := ops.cos w
    let A := ops.exp10 (p.gain.getD 0 / 40)
    .ok (alpha, cw, A)

namespace IIRCoeffs

/-- `IIRCoeffs.lowpassMZ` (matched-z transform lowpass). -/
def lowpassMZ (ops : RealOps α) (p : FilterParams α) :
    Except String (FilterCoeffs α) :=
  if truthy p.as = false ∨ truthy p.bs = false then
    .error "as and bs parameters are required for lowpassMZ"
  else
    let as := p.as.getD 0
    let bs := p.bs.getD 0
    let w := 2 * ops.pi * p.Fc / p.Fs
    let s := -(as / (2 * bs))
    let omegaTerm := -w * ops.sqrt (ops.abs (as ^ 2 / (4 * bs ^ 2) - 1 / bs))
    let a1 := -2 * ops.exp (s * w) * ops.cos omegaTerm
    let a2 := ops.exp (2 * s * w)
    if p.preGain = false then
      .ok { a := [a1, a2], b := [1 + a1 + a2, 0, 0], z := [0, 0],
            a0 := some 1, k := some 1 }
    else
      .ok { a := [a1, a2], b := [1, 0, 0], z := [0, 0],
            a0 := some 1, k := some (1 + a1 + a2) }

/-- `IIRCoeffs.lowpassBT` (Bessel-Thomson lowpass). -/
def lowpassBT (ops : RealOps α) (p : FilterParams α) :
    Except String (FilterCoeffs α) :=
  let wp := ops.tan (2 * ops.pi * p.Fc / (2 * p.Fs))
  let wp2 := wp * wp
  let Q : α := 1
  let a0 := 3 * wp + 3 * wp2 + 1
  let b0 := 3 * wp2 * Q / a0
  .ok { a := [(6 * wp2 - 2) / a0, (3 * wp2 - 3 * wp + 1) / a0],
        b := [b0, 2 * b0, b0], z := [0, 0], a0 := some a0, k := some 1 }

/-- `IIRCoeffs.highpassBT` (Bessel-Thomson highpass). -/
def highpassBT (ops : RealOps α) (p : FilterParams α) :
    Except String (FilterCoeffs α) :=
  let wp := ops.tan (2 * ops.pi * p.Fc / (2 * p.Fs))
  let wp2 := wp * wp
  let Q : α := 1
  let a0 := wp + wp2 + 3
  let b0 := 3 * Q / a0
  .ok { a := [(2 * wp2 - 6) / a0, (wp2 - wp + 3) / a0],
        b := [b0, 2 * b0, b0], z := [0, 0], a0 := some a0, k := some 1 }

/-- `IIRCoeffs.lowpass` (cookbook lowpass; deletes a truthy `BW` first). -/
def lowpass (ops : RealOps α) (p : FilterParams α) :
    Except String (FilterCoeffs α) := do
  let p := if truthy p.BW then { p with BW := none } else p
  let (_, cw, a0, aL) ← preCalc ops p
  let k : α := if p.preGain then (1 - cw) * (1 / 2) else 1
  let base := if p.preGain then 1 / a0 else (1 - cw) / (2 * a0)
  .ok { a := aL, b := [base, 2 * base, base], z := [0, 0],
        a0 := some a0, k := some k }

/-- `IIRCoeffs.highpass`. -/
def highpass (ops : RealOps α) (p : FilterParams α) :
    Except String (FilterCoeffs α) := do
  let p := if truthy p.BW then { p with BW := none } else p
  let (_, cw, a0, aL) ← preCalc ops p
  let k : α := if p.preGain then (1 + cw) * (1 / 2) else 1
  let base := if p.preGain then 1 / a0 else (1 + cw) / (2 * a0)
  .ok { a := aL, b := [base, -2 * base, base], z := [0, 0],
        a0 := some a0, k := some k }

/-- `IIRCoeffs.allpass`. -/
def allpass (ops : RealOps α) (p : FilterParams α) :
    Except String (FilterCoeffs α) := do
  let (alpha, cw, a0, aL) ← preCalc ops p
  .ok { a := aL,
        b := [(1 - alpha) / a0, -2 * cw / a0, (1 + alpha) / a0],
        z := [0, 0], a0 := some a0, k := some 1 }

/-- `IIRCoeffs.bandpass` (constant-skirt `(s/Q)` form). -/
def bandpass (ops : RealOps α) (p : FilterParams α) :
    Except String (FilterCoeffs α) := do
  let (alpha, _, a0, aL) ← preCalc ops p
  let base := alpha / a0
  .ok { a := aL, b := [base, 0, -base], z := [0, 0],
        a0 := some a0, k := some 1 }

/-- `IIRCoeffs.bandstop`. -/
def bandstop (ops : RealOps α) (p : FilterParams α) :
    Except String (FilterCoeffs α) := do
  let (_, cw, a0, aL) ← preCalc ops p
  let base := 1 / a0
  .ok { a := aL, b := [base, -2 * cw / a0, base], z := [0, 0],
        a0 := some a0, k := some 1 }

/-- `IIRCoeffs.peak`. -/
def peak (ops : RealOps α) (p : FilterParams α) :
    Except String (FilterCoeffs α) := do
  let (alpha, cw, A) ← preCalcGain ops p
  let a0 := 1 + alpha / A
  .ok { a := [-2 * cw / a0, (1 - alpha / A) / a0],
        b := [(1 + alpha * A) / a0, -2 * cw / a0, (1 - alpha * A) / a0],
        z := [0, 0], a0 := some a0, k := some 1 }

/-- `IIRCoeffs.lowshelf`. -/
def lowshelf (ops : RealOps α) (p : FilterParams α) :
    Except String (FilterCoeffs α) := do
  let (alpha, cw, A) ← preCalcGain ops p
  let sa := 2 * ops.sqrt A * alpha
  let a0 := A + 1 + (A - 1) * cw + sa
  .ok { a := [(-2 * (A - 1 + (A + 1) * cw)) / a0,
              (A + 1 + (A - 1) * cw - sa) / a0],
        b := [(A * (A + 1 - (A - 1) * cw + sa)) / a0,
              (2 * A * (A - 1 - (A + 1) * cw)) / a0,
              (A * (A + 1 - (A - 1) * cw - sa)) / a0],
        z := [0, 0], a0 := some a0, k := some 1 }

/-- `IIRCoeffs.highshelf`. -/
def highshelf (ops : RealOps α) (p : FilterParams α) :
    Except String (FilterCoeffs α) := do
  let (alpha, cw, A) ← preCalcGain ops p
  let sa := 2 * ops.sqrt A * alpha
  let a0 := A + 1 - (A - 1) * cw + sa
  .ok { a := [(2 * (A - 1 - (A + 1) * cw)) / a0,
              (A + 1 - (A - 1) * cw - sa) / a0],
        b := [(A * (A + 1 + (A - 1) * cw + sa)) / a0,
              (-2 * A * (A - 1 + (A + 1) * cw)) / a0,
              (A * (A + 1 + (A - 1) * cw - sa)) / a0],
        z := [0, 0], a0 := some a0, k := some 1 }

end IIRCoeffs

/-- The eleven `FilterBehavior` enumerants. -/
inductive FilterBehavior where
  | lowpass | highpass | bandpass | bandstop | allpass | peak
  | lowshelf | highshelf | lowpassMZ | highpassBT | lowpassBT
deriving DecidableEq

/-- The `FilterCharacteristic` enumerants. -/
inductive FilterCharacteristic where
  | butterworth | bessel | tschebyscheff05 | tschebyscheff1
  | tschebyscheff2 | tschebyscheff3 | allpass
deriving DecidableEq

/-- One characteristic's `q`/`f1dB`/`f3dB` correction columns, indexed by
`order-1` and stage. -/
structure StdTableEntry (α : Type) where
  q : ℕ → ℕ → α
  f1dB : ℕ → ℕ → α
  f3dB : ℕ → ℕ → α

/-- One characteristic's matched-z pole columns. -/
structure MZTableEntry (α : Type) where
  as : ℕ → ℕ → α
  bs : ℕ → ℕ → α

/-- `CascadeParams` of `calcCoeffs`. -/
structure CascadeParams (α : Type) where
  Fs : α
  Fc : α
  BW : Option α
  gain : Option α
  preGain : Option Bool
  order : Option ℕ
  matchedZ : Bool
  behavior : FilterBehavior
  characteristic : Option FilterCharacteristic
  oneDb : Bool

/-- The `switch (params.behavior)` dispatch. -/
def dispatchBehavior (ops : RealOps α) :
    FilterBehavior → FilterParams α → Except String (FilterCoeffs α)
  | .lowpass => IIRCoeffs.lowpass ops
  | .highpass => IIRCoeffs.highpass ops
  | .bandpass => IIRCoeffs.bandpass ops
  | .bandstop => IIRCoeffs.bandstop ops
  | .allpass => IIRCoeffs.allpass ops
  | .peak => IIRCoeffs.peak ops
  | .lowshelf => IIRCoeffs.lowshelf ops
  | .highshelf => IIRCoeffs.highshelf ops
  | .lowpassMZ => IIRCoeffs.lowpassMZ ops
  | .highpassBT => IIRCoeffs.highpassBT ops
  | .lowpassBT => IIRCoeffs.lowpassBT ops

/-- One iteration of the `calcCoeffs` loop at stage `i` (with `order`
already clamped). -/
def calcStage (ops : RealOps α)
    (tbl : FilterCharacteristic → Option (StdTableEntry α))
    (ti : FilterCharacteristic → Option (MZTableEntry α))
    (p : CascadeParams α) (order i : ℕ) : Except String (FilterCoeffs α) :=
  if p.matchedZ then
    match p.characteristic with
    | none => .error "matchedZ requires a characteristic pole table"
    | some c =>
      match ti c with
      | none => .error "matchedZ requires a characteristic pole table"
      | some e =>
        IIRCoeffs.lowpassMZ ops
          { Fs := p.Fs, Fc := p.Fc, Q := none, BW := none, gain := none,
            preGain := p.preGain.getD false,
            as := some (e.as (order - 1) i), bs := some (e.bs (order - 1) i) }
  else
    match p.characteristic with
    | none => .error "Characteristic is required"
    | some c =>
      let qf : Except String (α × α) :=
        if c = .butterworth then
          .ok (1 / 2 / ops.sin (ops.pi / ((order : α) * 2) * ((i : α) + 1 / 2)),
            1)
        else
          match tbl c with
          | none => .error "characteristic correction table is missing"
          | some e =>
            .ok (e.q (order - 1) i,
              if p.oneDb then e.f1dB (order - 1) i else e.f3dB (order - 1) i)
      match qf with
      | .error e => .error e
      | .ok (q, f) =>
        let fd0 := if p.behavior = .highpass then p.Fc / f else p.Fc * f
        let fd :=
          if (p.behavior = .bandpass ∨ p.behavior = .bandstop) ∧ c = .bessel
          then ops.sqrt ((order : α)) * fd0 / (order : α) else fd0
        dispatchBehavior ops p.behavior
          { Fs := p.Fs, Fc := fd, Q := some q, BW := some (p.BW.getD 0),
            gain := some (p.gain.getD 0), preGain := p.preGain.getD false,
            as := none, bs := none }

/-- Sequenced fallible map, mirroring the coefficient-pushing loop (an
error aborts the whole call). -/
def exceptMapM {β : Type} (f : ℕ → Except String β) :
    List ℕ → Except String (List β)
  | [] => .ok []
  | i :: is =>
    match f i with
    | .error e => .error e
    | .ok c =>
      match exceptMapM f is with
      | .error e => .error e
      | .ok cs => .ok (c :: cs)

/-- `calcCoeffs`: clamp the order to at most 12 (missing order is 0) and
build one biquad coefficient set per stage. -/
def calcCoeffs (ops : RealOps α)
    (tbl : FilterCharacteristic → Option (StdTableEntry α))
    (ti : FilterCharacteristic → Option (MZTableEntry α))
    (p : CascadeParams α) : Except String (List (FilterCoeffs α)) :=
  let order := min (p.order.getD 0) 12
  exceptMapM (calcStage ops tbl ti p order) (List.range order)

lemma exceptMapM_ok_length {β : Type} (f : ℕ → Except String β)
    (l : List ℕ) (res : List β) (h : exceptMapM f l = .ok res) :
    res.length = l.length := by
  induction l generalizing res with
  | nil =>
    simp only [exceptMapM] at h
    cases h
    rfl
  | cons i is ih =>
    simp only [exceptMapM] at h
    cases hf : f i with
    | error e => rw [hf] at h; exact absurd h (by simp)
    | ok c =>
      rw [hf] at h
      cases hrest : exceptMapM f is with
      | error e => rw [hrest] at h; exact absurd h (by simp)
      | ok cs =>
        rw [hrest] at h
        simp only [Except.ok.injEq] at h
        subst h
        simp [ih cs hrest]

lemma exceptMapM_congr {β : Type} (f g : ℕ → Except String β)
    (l : List ℕ) (h : ∀ i ∈ l, f i = g i) :
    exceptMapM f l = exceptMapM g l := by
  induction l with
  | nil => rfl
  | cons i is ih =>
    simp only [exceptMapM, h i (List.mem_cons_self i is),
      ih fun j hj => h j (List.mem_cons_of_mem i hj)]

/-- C5: `calcCoeffs` builds exactly `min(order, 12)` stages (missing order
counts as 0); on the standard path with the Butterworth characteristic,
stage `i` is dispatched with `Q = 0.5/sin(π/(2·order)·(i+0.5))` and `f = 1`,
with corrected cutoff `cutoff/f` for highpass and `cutoff·f` otherwise; and
for bandpass/bandstop with the Bessel characteristic the corrected cutoff
`cutoff·f` is further scaled by `sqrt(order)/order`. -/
theorem calcCoeffs_spec (ops : RealOps α)
    (tbl : FilterCharacteristic → Option (StdTableEntry α))
    (ti : FilterCharacteristic → Option (MZTableEntry α))
    (p : CascadeParams α) :
    (∀ l, calcCoeffs ops tbl ti p = .ok l →
      l.length = min (p.order.getD 0) 12) ∧
    (p.characteristic = some .butterworth → p.matchedZ = false →
      calcCoeffs ops tbl ti p =
        exceptMapM (fun i =>
          dispatchBehavior ops p.behavior
            { Fs := p.Fs,
              Fc := if p.behavior = .highpass then p.Fc / 1 else p.Fc * 1,
              Q := some (1 / 2 / ops.sin (ops.pi /
                (((min (p.order.getD 0) 12 : ℕ) : α) * 2) *
                ((i : α) + 1 / 2))),
              BW := some (p.BW.getD 0), gain := some (p.gain.getD 0),
              preGain := p.preGain.getD false, as := none, bs := none })
          (List.range (min (p.order.getD 0) 12))) ∧
    (p.characteristic = some .bessel → p.matchedZ = false →
      (p.behavior = .bandpass ∨ p.behavior = .bandstop) →
      ∀ e, tbl .bessel = some e →
        calcCoeffs ops tbl ti p =
          exceptMapM (fun i =>
            dispatchBehavior ops p.behavior
              { Fs := p.Fs,
                Fc := p.Fc * (if p.oneDb then
                      e.f1dB (min (p.order.getD 0) 12 - 1) i
                    else e.f3dB (min (p.order.getD 0) 12 - 1) i) *
                  ops.sqrt ((min (p.order.getD 0) 12 : ℕ) : α) /
                  ((min (p.order.getD 0) 12 : ℕ) : α),
                Q := some (e.q (min (p.order.getD 0) 12 - 1) i),
                BW := some (p.BW.getD 0), gain := some (p.gain.getD 0),
                preGain := p.preGain.getD false, as := none, bs := none })
            (List.range (min (p.order.getD 0) 12))) := by
  refine ⟨?_, ?_, ?_⟩
  · intro l hl
    unfold calcCoeffs at hl
    have := exceptMapM_ok_length _ _ _ hl
    simpa using this
  · intro hchar hmz
    unfold calcCoeffs
    apply exceptMapM_congr
    intro i hi
    simp only [calcStage, hmz, Bool.false_eq_true, if_false, hchar]
    simp
  · intro hchar hmz hband e he
    unfold calcCoeffs
    apply exceptMapM_congr
    intro i hi
    have hnh : ¬(p.behavior = FilterBehavior.highpass) := by
      rcases hband with hb | hb <;> rw [hb] <;> simp
    simp only [calcStage, hmz, Bool.false_eq_true, if_false, hchar]
    rw [if_neg (by simp : ¬(FilterCharacteristic.bessel =
      FilterCharacteristic.butterworth)), he]
    simp only [if_neg hnh, if_pos (And.intro hband rfl)]
    have hfc : ops.sqrt ((min (p.order.getD 0) 12 : ℕ) : α) *
        (p.Fc * (if p.oneDb then e.f1dB (min (p.order.getD 0) 12 - 1) i
          else e.f3dB (min (p.order.getD 0) 12 - 1) i)) /
        ((min (p.order.getD 0) 12 : ℕ) : α) =
        p.Fc * (if p.oneDb then e.f1dB (min (p.order.getD 0) 12 - 1) i
          else e.f3dB (min (p.order.getD 0) 12 - 1) i) *
        ops.sqrt ((min (p.order.getD 0) 12 : ℕ) : α) /
        ((min (p.order.getD 0) 12 : ℕ) : α) := by ring
    rw [hfc]
    rw [if_pos (And.intro hband trivial)]

end Designer

/-- The `IIRFilter` constructor: each `FilterCoeffs` stage becomes a
cascade entry with coefficients `b[0..2]`, `a[0..1]`, `k ?? 1` and zeroed
delay state (the designer always emits three `b` and two `a`
coefficients). -/
def IIRFilterInit (fs : List (FilterCoeffs ℚ)) : List Biquad :=
  fs.map fun c =>
    { b0 := c.b.getD 0 0, b1 := c.b.getD 1 0, b2 := c.b.getD 2 0,
      a1 := c.a.getD 0 0, a2 := c.a.getD 1 0, k := c.k.getD 1,
      z0 := 0, z1 := 0 }

/-- A freshly constructed engine has all delay state zero, so the
hypothesis of the reinit law holds for every constructed engine. -/
lemma IIRFilterInit_fresh (fs : List (FilterCoeffs ℚ)) :
    ∀ s ∈ IIRFilterInit fs, s.z0 = 0 ∧ s.z1 = 0 := by
  intro s hs
  simp only [IIRFilterInit, List.mem_map] at hs
  obtain ⟨c, _, rfl⟩ := hs
  exact ⟨rfl, rfl⟩

/-- Interpretation of the transcendental functions used by the C5 witness. -/
def c5Ops : RealOps ℚ :=
  { pi := 1, ln2 := 1, sin := fun _ => 1, cos := fun _ => 0,
    tan := fun x => x, sinh := fun x => x, sqrt := fun x => x,
    exp := fun x => x, exp10 := fun _ => 1, abs := fun x => x }

def c5Tbl : FilterCharacteristic → Option (StdTableEntry ℚ) := fun _ => none

def c5Ti : FilterCharacteristic → Option (MZTableEntry ℚ) := fun _ => none

/-- A 1st-order Butterworth lowpass specification at `Fs = 2`, `Fc = 1`. -/
def c5Params : CascadeParams ℚ :=
  { Fs := 2, Fc := 1, BW := none, gain := none, preGain := none,
    order := some 1, matchedZ := false, behavior := .lowpass,
    characteristic := some .butterworth, oneDb := false }

/-- The single stage `calcCoeffs` produces for `c5Params` under `c5Ops`. -/
def c5Expected : FilterCoeffs ℚ :=
  { a := [0, 0], b := [1/4, 1/2, 1/4], z := [0, 0],
    a0 := some 2, k := some 1 }

/-- C5 witness: the Butterworth form evaluated at the concrete
specification. -/
theorem calcCoeffs_spec_witness :
    calcCoeffs c5Ops c5Tbl c5Ti c5Params = .ok [c5Expected] := by
  have h := (calcCoeffs_spec c5Ops c5Tbl c5Ti c5Params).2.1 rfl rfl
  rw [h]
  with_unfolding_all rfl

end OpenPSG
